import Mathlib

/-!
Verification of the G3ICAP Python client (`examples/clients/python/icap_client.py`).

The development shallowly embeds the client's pure core: Python `str` values
become `List Char`, Python `bytes` become `List Nat` (byte values), Python
dicts (which preserve insertion order and update in place) become association
lists with an order-preserving insert, exceptions become explicit `Except` /
error values, and the retry loop of `_make_request` becomes a recursive
function driven by a transport oracle `Nat → AttemptOutcome` giving the
outcome of each attempt.  Python floats (`retry_delay`, `backoff_factor`,
response times) are modelled as exact rationals.
-/

namespace G3Icap

/-- Python strings, modelled as lists of characters. -/
abbrev PyStr := List Char

/-- Python byte strings, modelled as lists of byte values. -/
abbrev PyBytes := List Nat

/-- Characters stripped by Python `str.strip()` (the ASCII whitespace
characters; the client only ever strips ASCII data). -/
def isPySpace (c : Char) : Bool :=
  c = ' ' || c = '\t' || c = '\n' || c = '\r' || c = '\x0b' || c = '\x0c'

/-- Python `str.strip()`: drop leading and trailing whitespace. -/
def pyStrip (s : PyStr) : PyStr :=
  ((s.dropWhile isPySpace).reverse.dropWhile isPySpace).reverse

/-- Split a string at the first occurrence of character `sep`: returns the
part before it and, when `sep` occurs, the part after it. -/
def breakOn (sep : Char) : PyStr → PyStr × Option PyStr
  | [] => ([], none)
  | c :: cs =>
    if c = sep then ([], some cs)
    else
      let r := breakOn sep cs
      (c :: r.1, r.2)

/-- Python `s.split(sep, 1)` for a one-character separator. -/
def pySplit1 (sep : Char) (s : PyStr) : List PyStr :=
  match breakOn sep s with
  | (a, none) => [a]
  | (a, some b) => [a, b]

/-- Python `s.split(sep, 2)` for a one-character separator. -/
def pySplit2 (sep : Char) (s : PyStr) : List PyStr :=
  match breakOn sep s with
  | (a, none) => [a]
  | (a, some b) => a :: pySplit1 sep b

/-- Python `s.split(sep)` (no limit) for a one-character separator. -/
def pySplitAll (sep : Char) : PyStr → List PyStr
  | [] => [[]]
  | c :: cs =>
    if c = sep then [] :: pySplitAll sep cs
    else
      match pySplitAll sep cs with
      | [] => [[c]]
      | l :: ls => (c :: l) :: ls

/-- Python `text.split(chr(13) ++ chr(10))`: split on the two-character
CRLF separator, left to right. -/
def splitCRLF : PyStr → List PyStr
  | [] => [[]]
  | '\r' :: '\n' :: rest => [] :: splitCRLF rest
  | c :: rest =>
    match splitCRLF rest with
    | [] => [[c]]
    | l :: ls => (c :: l) :: ls

/-- Python `sep.join(lines)` for the CRLF separator. -/
def joinCRLF : List PyStr → PyStr
  | [] => []
  | [l] => l
  | l :: ls => l ++ '\r' :: '\n' :: joinCRLF ls

/-- Accumulate decimal digits, most significant first. -/
def digitsToNat (ds : PyStr) : Nat :=
  ds.foldl (fun a c => 10 * a + (c.toNat - 48)) 0

/-- The digit-run fragment of Python `int()`: a nonempty string of ASCII
digits. -/
def digitsVal (ds : PyStr) : Option Nat :=
  if ds ≠ [] ∧ ds.all Char.isDigit then some (digitsToNat ds) else none

/-- Python `int(s)` on the fragment exercised by the client: surrounding
whitespace is ignored, an optional sign is followed by decimal digits
(digit-group underscores are not modelled). -/
def pyIntCore : PyStr → Option Int
  | [] => none
  | c :: ds =>
    if c = '-' then (digitsVal ds).map (fun n => -(Int.ofNat n))
    else if c = '+' then (digitsVal ds).map (fun n => Int.ofNat n)
    else (digitsVal (c :: ds)).map (fun n => Int.ofNat n)

def pyInt (s : PyStr) : Option Int := pyIntCore (pyStrip s)

/-- Python `str(n)` for a natural number. -/
def natToStr (n : Nat) : PyStr :=
  if n = 0 then ['0']
  else ((Nat.digits 10 n).map (fun d => Char.ofNat (48 + d))).reverse

/-- Python `str(z)` for an integer. -/
def intToStr (z : Int) : PyStr :=
  if z < 0 then '-' :: natToStr (-z).toNat else natToStr z.toNat

/-- UTF-8 encoding of one character (Python `str.encode`). -/
def utf8EncodeChar (c : Char) : PyBytes :=
  let n := c.toNat
  if n < 128 then [n]
  else if n < 2048 then [192 + n / 64, 128 + n % 64]
  else if n < 65536 then [224 + n / 4096, 128 + (n / 64) % 64, 128 + n % 64]
  else [240 + n / 262144, 128 + (n / 4096) % 64, 128 + (n / 64) % 64, 128 + n % 64]

/-- Python `text.encode(utf8)`. -/
def utf8Encode (s : PyStr) : PyBytes :=
  (s.map utf8EncodeChar).flatten

/-- Is `b` a UTF-8 continuation byte? -/
def isCont (b : Nat) : Bool := 128 ≤ b && b ≤ 191

/-- Python `data.decode(utf8, errors=ignore)`: decode UTF-8, silently
skipping the bytes of invalid or truncated sequences.  Total by
construction, mirroring the `ignore` error handler. -/
def utf8Step (b : Nat) (rest : PyBytes) : Option Char × PyBytes :=
  if b < 128 then (some (Char.ofNat b), rest)
  else if 194 ≤ b ∧ b ≤ 223 then
    match rest with
    | b2 :: rest2 =>
      if isCont b2 then (some (Char.ofNat ((b - 192) * 64 + (b2 - 128))), rest2)
      else (none, b2 :: rest2)
    | [] => (none, [])
  else if 224 ≤ b ∧ b ≤ 239 then
    match rest with
    | b2 :: b3 :: rest3 =>
      if (if b = 224 then 160 ≤ b2 && b2 ≤ 191
          else if b = 237 then 128 ≤ b2 && b2 ≤ 159
          else isCont b2) && isCont b3 then
        (some (Char.ofNat ((b - 224) * 4096 + (b2 - 128) * 64 + (b3 - 128))), rest3)
      else (none, b2 :: b3 :: rest3)
    | short => (none, short)
  else if 240 ≤ b ∧ b ≤ 244 then
    match rest with
    | b2 :: b3 :: b4 :: rest4 =>
      if (if b = 240 then 144 ≤ b2 && b2 ≤ 191
          else if b = 244 then 128 ≤ b2 && b2 ≤ 143
          else isCont b2) && isCont b3 && isCont b4 then
        (some (Char.ofNat ((b - 240) * 262144 + (b2 - 128) * 4096 + (b3 - 128) * 64 + (b4 - 128))),
         rest4)
      else (none, b2 :: b3 :: b4 :: rest4)
    | short => (none, short)
  else (none, rest)

theorem utf8Step_length (b : Nat) (rest : PyBytes) :
    (utf8Step b rest).2.length ≤ rest.length := by
  unfold utf8Step
  repeat' split
  all_goals simp_all
  all_goals omega

def decodeUtf8Ignore : PyBytes → PyStr
  | [] => []
  | b :: rest =>
    match _hstep : utf8Step b rest with
    | (some c, rest2) => c :: decodeUtf8Ignore rest2
    | (none, rest2) => decodeUtf8Ignore rest2
termination_by bs => bs.length
decreasing_by
  all_goals
    have hlen := utf8Step_length b rest
    simp_all
    omega

/-- Python dicts over string keys: association lists in insertion order. -/
abbrev PyDict := List (PyStr × PyStr)

/-- Python `d[k] = v`: replace the value in place when the key is present,
otherwise append the pair. -/
def dictInsert : PyDict → PyStr → PyStr → PyDict
  | [], k, v => [(k, v)]
  | (k0, v0) :: rest, k, v =>
    if k0 = k then (k0, v) :: rest else (k0, v0) :: dictInsert rest k v

/-- Python `d.get(k)`. -/
def dictGet (d : PyDict) (k : PyStr) : Option PyStr :=
  (d.find? (fun p => p.1 == k)).map (·.2)

/-! ### Data model (`HttpRequest`, `HttpResponse`, `IcapResponse`, `IcapConfig`) -/

/-- The `HttpRequest` pydantic model. -/
structure HttpRequest where
  method : PyStr
  uri : PyStr
  version : PyStr
  headers : PyDict
  body : Option PyBytes
deriving DecidableEq, Repr

/-- The `HttpResponse` pydantic model. -/
structure HttpResponse where
  version : PyStr
  status_code : Int
  reason : PyStr
  headers : PyDict
  body : Option PyBytes
deriving DecidableEq, Repr

/-- The `IcapResponse` pydantic model (the `http_request` / `http_response`
fields stay `none` everywhere in the client). -/
structure IcapResponse where
  version : PyStr
  status_code : Int
  reason : PyStr
  headers : PyDict
  body : Option PyBytes
  http_request : Option HttpRequest
  http_response : Option HttpResponse
deriving DecidableEq, Repr

/-- A `Union[HttpRequest, HttpResponse]` payload. -/
inductive HttpData where
  | request (r : HttpRequest)
  | response (r : HttpResponse)
deriving DecidableEq, Repr

/-- The fields of `IcapConfig` that the retry loop reads.  `retries` is the
`max_retries` knob (number of retries after the first attempt); the delay
parameters are Python floats, modelled as exact rationals. -/
structure IcapConfig where
  retries : Nat
  retry_delay : ℚ
  max_retry_delay : ℚ
  backoff_factor : ℚ
deriving DecidableEq, Repr

/-! ### Message encoding (`_build_encapsulated_header`, `_serialize_http_data`) -/

/-- The `Encapsulated` header built by `_build_encapsulated_header`: the
source returns the fixed strings with sentinel offsets 75 / 120. -/
def build_encapsulated_header (http_data : HttpData) : PyStr :=
  match http_data with
  | .request _ => "req-hdr=0, null-body=75".toList
  | .response _ => "res-hdr=0, null-body=120".toList

/-- The headers of either payload variant. -/
def HttpData.headers : HttpData → PyDict
  | .request r => r.headers
  | .response r => r.headers

/-- The body of either payload variant. -/
def HttpData.body : HttpData → Option PyBytes
  | .request r => r.body
  | .response r => r.body

/-- The text assembled by `_serialize_http_data` before its final
`.encode(utf8)`: start line, headers, a blank line, and — when the body is
truthy (present and nonempty) — the body decoded with `errors=ignore`,
all joined with CRLF. -/
def serializeLines (http_data : HttpData) : PyStr :=
  let startLine : PyStr :=
    match http_data with
    | .request r => r.method ++ ' ' :: r.uri ++ ' ' :: r.version
    | .response r => r.version ++ ' ' :: intToStr r.status_code ++ ' ' :: r.reason
  let headerLines := http_data.headers.map (fun p => p.1 ++ ':' :: ' ' :: p.2)
  let bodyLines : List PyStr :=
    match http_data.body with
    | some bs => if bs = [] then [] else [decodeUtf8Ignore bs]
    | none => []
  joinCRLF (startLine :: (headerLines ++ [[]] ++ bodyLines))

/-- `_serialize_http_data`: the serialized ICAP body bytes. -/
def serialize_http_data (http_data : HttpData) : PyBytes :=
  utf8Encode (serializeLines http_data)

/-! ### Response parsing (`_parse_icap_response`) -/

/-- The Python exceptions `_parse_icap_response` can raise: an `IndexError`
from `parts[1]` when the status line has fewer than two space-separated
tokens, or a `ValueError` from `int(parts[1])` (carrying the offending
token) when the second token is not a valid integer. -/
inductive ParseErr where
  | indexError
  | valueError (tok : PyStr)
deriving DecidableEq, Repr

/-- The header loop of `_parse_icap_response` over `lines[1:]`: stop at the
first blank line returning the remaining lines, record `name.strip() ↦
value.strip()` for each line containing a colon, and silently skip lines
without one.  Returns `none` for the remainder when no blank line occurs
(in the source `body_start` then keeps its initial value `0`). -/
def parseHeaderLines (acc : PyDict) : List PyStr → PyDict × Option (List PyStr)
  | [] => (acc, none)
  | l :: rest =>
    if l = [] then (acc, some rest)
    else
      match breakOn ':' l with
      | (n, some v) => parseHeaderLines (dictInsert acc (pyStrip n) (pyStrip v)) rest
      | (_, none) => parseHeaderLines acc rest

/-- `_parse_icap_response`: split the text on CRLF, tokenize the status line
with `split(chr(32), 2)`, parse the status code with `int`, collect headers
up to the first blank line, and treat the remaining lines as the body
(absent when blank or when the blank line ends the message).  When no blank
line exists, `body_start` stays `0`, so the body is recomputed from all
lines including the status line. -/
def parse_icap_response (text : PyStr) : Except ParseErr IcapResponse :=
  let lines := splitCRLF text
  let statusLine := lines.headI
  let parts := pySplit2 ' ' statusLine
  match parts.get? 1 with
  | none => .error .indexError
  | some tok =>
    match pyInt tok with
    | none => .error (.valueError tok)
    | some code =>
      let reason := (parts.get? 2).getD []
      let hs := parseHeaderLines [] lines.tail
      let bodyText :=
        match hs.2 with
        | some bodyLines => joinCRLF bodyLines
        | none => joinCRLF lines
      let body : Option PyBytes :=
        if pyStrip bodyText = [] then none else some (utf8Encode bodyText)
      .ok { version := parts.headI
            status_code := code
            reason := reason
            headers := hs.1
            body := body
            http_request := none
            http_response := none }

/-! ### The retry loop (`_make_request`) and metrics -/

/-- The client's metrics dictionary (times as exact rationals). -/
structure Metrics where
  requests_total : Nat
  requests_success : Nat
  requests_failed : Nat
  response_time_total : ℚ
  response_time_avg : ℚ
deriving DecidableEq, Repr

/-- Metrics at client construction. -/
def initMetrics : Metrics := ⟨0, 0, 0, 0, 0⟩

/-- The `IcapError` hierarchy as raised by `_make_request`'s handlers.
`protocolErr` mirrors `IcapProtocolError`, which the source defines but
never raises. -/
inductive IcapErr where
  | timeoutErr (msg : PyStr)
  | connectionErr (msg : PyStr)
  | unexpectedErr (msg : PyStr)
  | protocolErr (msg : PyStr)
deriving DecidableEq, Repr

/-- The message of a parse exception (Python `str(e)`). -/
def ParseErr.msg : ParseErr → PyStr
  | .indexError => "list index out of range".toList
  | .valueError tok => "invalid literal for int() with base 10: ".toList ++ tok

/-- What one attempt of the transport does: either an HTTP-level response
arrives (with `response.status`, the decoded response text, and the elapsed
time), or the attempt raises `asyncio.TimeoutError`, an
`aiohttp.ClientError`, or some other exception. -/
inductive AttemptOutcome where
  | response (status : Int) (text : PyStr) (dur : ℚ)
  | timeoutExn (msg : PyStr)
  | clientError (msg : PyStr)
  | otherExn (msg : PyStr)
deriving DecidableEq, Repr

/-- Did the attempt deliver an HTTP response (as opposed to raising before
one was received)? -/
def AttemptOutcome.gotResponse : AttemptOutcome → Bool
  | .response _ _ _ => true
  | _ => false

/-- How `_make_request`'s `except` arms wrap a raised attempt into an
`IcapError` (`response` outcomes are wrapped only when parsing the text
raises, see `makeRequestLoop`). -/
def wrapExn : AttemptOutcome → IcapErr
  | .timeoutExn m => .timeoutErr ("Request timeout: ".toList ++ m)
  | .clientError m => .connectionErr ("Connection error: ".toList ++ m)
  | .otherExn m => .unexpectedErr ("Unexpected error: ".toList ++ m)
  | .response _ _ _ => .unexpectedErr []

/-- Metrics update performed once a response arrives, before parsing:
`requests_total += 1`, accumulate the response time, recompute the average,
and count success/failure by `response.status < 400`. -/
def bumpMetrics (m : Metrics) (status : Int) (dur : ℚ) : Metrics :=
  let total := m.requests_total + 1
  let rtt := m.response_time_total + dur
  { requests_total := total
    response_time_total := rtt
    response_time_avg := rtt / (total : ℚ)
    requests_success := if status < 400 then m.requests_success + 1 else m.requests_success
    requests_failed := if status < 400 then m.requests_failed else m.requests_failed + 1 }

/-- The backoff delay computed before retrying attempt `attempt`:
`min(retry_delay * backoff_factor ** attempt, max_retry_delay)`. -/
def retryDelay (config : IcapConfig) (attempt : Nat) : ℚ :=
  min (config.retry_delay * config.backoff_factor ^ attempt) config.max_retry_delay

instance {ε α : Type} [DecidableEq ε] [DecidableEq α] : DecidableEq (Except ε α) := fun x y =>
  match x, y with
  | .ok a, .ok b => decidable_of_iff (a = b) (by simp)
  | .error a, .error b => decidable_of_iff (a = b) (by simp)
  | .ok _, .error _ => isFalse (by simp)
  | .error _, .ok _ => isFalse (by simp)

/-- Everything observable about one `_make_request` call: the returned
response or raised error, the final metrics, the backoff delays slept (in
order), and the number of attempts performed. -/
structure RunResult where
  result : Except IcapErr IcapResponse
  metrics : Metrics
  delays : List ℚ
  attempts : Nat
deriving DecidableEq, Repr

/-- The body of `for attempt in range(retries + 1)` in `_make_request`.
`i` is the current attempt index, `left` the number of iterations the range
still holds, `m` the metrics so far, `lastExc` the latest `last_exception`,
and `ds` the delays slept so far.  A received response first updates the
metrics and is then parsed; a parse exception falls into the generic
`except Exception` arm.  After a failed attempt the loop sleeps
`retryDelay` when `attempt < retries`.  When the range is exhausted the
source runs `requests_failed += 1` and re-raises `last_exception`. -/
def makeRequestLoop (config : IcapConfig) (outcomes : Nat → AttemptOutcome) :
    Nat → Nat → Metrics → Option IcapErr → List ℚ → RunResult
  | i, 0, m, lastExc, ds =>
    ⟨.error (lastExc.getD (.unexpectedErr [])),
     { m with requests_failed := m.requests_failed + 1 }, ds, i⟩
  | i, left + 1, m, _lastExc, ds =>
    let sleep : List ℚ := if i < config.retries then [retryDelay config i] else []
    match outcomes i with
    | .response status text dur =>
      let m1 := bumpMetrics m status dur
      match parse_icap_response text with
      | .ok r => ⟨.ok r, m1, ds, i + 1⟩
      | .error pe =>
        makeRequestLoop config outcomes (i + 1) left m1
          (some (.unexpectedErr ("Unexpected error: ".toList ++ pe.msg))) (ds ++ sleep)
    | o =>
      makeRequestLoop config outcomes (i + 1) left m (some (wrapExn o)) (ds ++ sleep)

/-- One `_make_request` call starting from metrics `m`. -/
def make_request_from (config : IcapConfig) (outcomes : Nat → AttemptOutcome)
    (m : Metrics) : RunResult :=
  makeRequestLoop config outcomes 0 (config.retries + 1) m none []

/-- One `_make_request` call on a fresh client. -/
def make_request (config : IcapConfig) (outcomes : Nat → AttemptOutcome) : RunResult :=
  make_request_from config outcomes initMetrics

/-! ### Health check (`health_check`) -/

/-- The dictionary returned by `health_check`; absent keys are `none`. -/
structure HealthResult where
  status : PyStr
  status_code : Option Int
  version : Option PyStr
  methods : Option (List PyStr)
  istag : Option PyStr
  error : Option PyStr
deriving DecidableEq, Repr

/-- The message of an `IcapError` (Python `str(e)`). -/
def IcapErr.msg : IcapErr → PyStr
  | .timeoutErr m => m
  | .connectionErr m => m
  | .unexpectedErr m => m
  | .protocolErr m => m

/-- `health_check` applied to the outcome of the inner `options()` call: a
total function — every raised error becomes a structured unhealthy result,
a response is summarized with `status` decided by `status_code < 400` and
the `Methods` header comma-split when present and nonempty. -/
def health_check (outcome : Except IcapErr IcapResponse) : HealthResult :=
  match outcome with
  | .ok response =>
    { status := if response.status_code < 400 then "healthy".toList else "unhealthy".toList
      status_code := some response.status_code
      version := some ((dictGet response.headers "Service".toList).getD "unknown".toList)
      methods := some
        (match dictGet response.headers "Methods".toList with
         | some v => if v = [] then [] else pySplitAll ',' v
         | none => [])
      istag := some ((dictGet response.headers "ISTag".toList).getD [])
      error := none }
  | .error e =>
    { status := "unhealthy".toList
      status_code := none
      version := none
      methods := none
      istag := none
      error := some e.msg }

/-- The number of attempts among `i, i+1, …, i+n-1` on which the transport
delivered a response. -/
def countRespFrom (outcomes : Nat → AttemptOutcome) : Nat → Nat → Nat
  | _, 0 => 0
  | i, n + 1 => (if (outcomes i).gotResponse then 1 else 0) + countRespFrom outcomes (i + 1) n

/-- The error an attempt contributes to `last_exception`, or `none` when the
attempt returns a parsed response. -/
def attemptFails (o : AttemptOutcome) : Option IcapErr :=
  match o with
  | .response _ text _ =>
    match parse_icap_response text with
    | .ok _ => none
    | .error pe => some (.unexpectedErr ("Unexpected error: ".toList ++ pe.msg))
  | o => some (wrapExn o)

theorem attemptFails_of_not_response (o : AttemptOutcome) (h : o.gotResponse = false) :
    attemptFails o = some (wrapExn o) := by
  cases o <;> simp_all [attemptFails, AttemptOutcome.gotResponse]

theorem loop_attempts_ge (config : IcapConfig) (outcomes : Nat → AttemptOutcome) :
    ∀ left i m le ds, i ≤ (makeRequestLoop config outcomes i left m le ds).attempts := by
  intro left
  induction left with
  | zero => intro i m le ds; simp [makeRequestLoop]
  | succ k ih =>
    intro i m le ds
    cases h : outcomes i with
    | response st text dur =>
      cases hp : parse_icap_response text with
      | ok r => simp [makeRequestLoop, h, hp]
      | error pe =>
        simp only [makeRequestLoop, h, hp]
        exact le_trans (Nat.le_succ i) (ih (i + 1) _ _ _)
    | timeoutExn msg =>
      simp only [makeRequestLoop, h]
      exact le_trans (Nat.le_succ i) (ih (i + 1) _ _ _)
    | clientError msg =>
      simp only [makeRequestLoop, h]
      exact le_trans (Nat.le_succ i) (ih (i + 1) _ _ _)
    | otherExn msg =>
      simp only [makeRequestLoop, h]
      exact le_trans (Nat.le_succ i) (ih (i + 1) _ _ _)

theorem loop_requests_total (config : IcapConfig) (outcomes : Nat → AttemptOutcome) :
    ∀ left i m le ds,
      (makeRequestLoop config outcomes i left m le ds).metrics.requests_total
        = m.requests_total
          + countRespFrom outcomes i ((makeRequestLoop config outcomes i left m le ds).attempts - i) := by
  intro left
  induction left with
  | zero => intro i m le ds; simp [makeRequestLoop, countRespFrom]
  | succ k ih =>
    intro i m le ds
    cases h : outcomes i with
    | response st text dur =>
      cases hp : parse_icap_response text with
      | ok r =>
        simp [makeRequestLoop, h, hp, countRespFrom, AttemptOutcome.gotResponse, bumpMetrics,
          Nat.succ_sub_one, Nat.add_sub_cancel_left]
      | error pe =>
        simp only [makeRequestLoop, h, hp]
        have hge := loop_attempts_ge config outcomes k (i + 1)
          (bumpMetrics m st dur)
          (some (.unexpectedErr ("Unexpected error: ".toList ++ pe.msg)))
          (ds ++ if i < config.retries then [retryDelay config i] else [])
        rw [ih]
        have hA : (makeRequestLoop config outcomes (i + 1) k (bumpMetrics m st dur)
            (some (.unexpectedErr ("Unexpected error: ".toList ++ pe.msg)))
            (ds ++ if i < config.retries then [retryDelay config i] else [])).attempts - i
            = ((makeRequestLoop config outcomes (i + 1) k (bumpMetrics m st dur)
              (some (.unexpectedErr ("Unexpected error: ".toList ++ pe.msg)))
              (ds ++ if i < config.retries then [retryDelay config i] else [])).attempts - (i + 1)) + 1 := by
          omega
        rw [hA, countRespFrom, h]
        simp [AttemptOutcome.gotResponse, bumpMetrics]
        omega
    | timeoutExn msg =>
      simp only [makeRequestLoop, h]
      have hge := loop_attempts_ge config outcomes k (i + 1) m
        (some (wrapExn (.timeoutExn msg)))
        (ds ++ if i < config.retries then [retryDelay config i] else [])
      rw [ih]
      have hA : (makeRequestLoop config outcomes (i + 1) k m
          (some (wrapExn (.timeoutExn msg)))
          (ds ++ if i < config.retries then [retryDelay config i] else [])).attempts - i
          = ((makeRequestLoop config outcomes (i + 1) k m
            (some (wrapExn (.timeoutExn msg)))
            (ds ++ if i < config.retries then [retryDelay config i] else [])).attempts - (i + 1)) + 1 := by
        omega
      rw [hA, countRespFrom, h]
      simp [AttemptOutcome.gotResponse]
    | clientError msg =>
      simp only [makeRequestLoop, h]
      have hge := loop_attempts_ge config outcomes k (i + 1) m
        (some (wrapExn (.clientError msg)))
        (ds ++ if i < config.retries then [retryDelay config i] else [])
      rw [ih]
      have hA : (makeRequestLoop config outcomes (i + 1) k m
          (some (wrapExn (.clientError msg)))
          (ds ++ if i < config.retries then [retryDelay config i] else [])).attempts - i
          = ((makeRequestLoop config outcomes (i + 1) k m
            (some (wrapExn (.clientError msg)))
            (ds ++ if i < config.retries then [retryDelay config i] else [])).attempts - (i + 1)) + 1 := by
        omega
      rw [hA, countRespFrom, h]
      simp [AttemptOutcome.gotResponse]
    | otherExn msg =>
      simp only [makeRequestLoop, h]
      have hge := loop_attempts_ge config outcomes k (i + 1) m
        (some (wrapExn (.otherExn msg)))
        (ds ++ if i < config.retries then [retryDelay config i] else [])
      rw [ih]
      have hA : (makeRequestLoop config outcomes (i + 1) k m
          (some (wrapExn (.otherExn msg)))
          (ds ++ if i < config.retries then [retryDelay config i] else [])).attempts - i
          = ((makeRequestLoop config outcomes (i + 1) k m
            (some (wrapExn (.otherExn msg)))
            (ds ++ if i < config.retries then [retryDelay config i] else [])).attempts - (i + 1)) + 1 := by
        omega
      rw [hA, countRespFrom, h]
      simp [AttemptOutcome.gotResponse]

theorem loop_success_failed (config : IcapConfig) (outcomes : Nat → AttemptOutcome) :
    ∀ left i m le ds,
      m.requests_success + m.requests_failed = m.requests_total →
      ((∀ r, (makeRequestLoop config outcomes i left m le ds).result = .ok r →
          (makeRequestLoop config outcomes i left m le ds).metrics.requests_success
            + (makeRequestLoop config outcomes i left m le ds).metrics.requests_failed
            = (makeRequestLoop config outcomes i left m le ds).metrics.requests_total)
       ∧ (∀ e, (makeRequestLoop config outcomes i left m le ds).result = .error e →
          (makeRequestLoop config outcomes i left m le ds).metrics.requests_success
            + (makeRequestLoop config outcomes i left m le ds).metrics.requests_failed
            = (makeRequestLoop config outcomes i left m le ds).metrics.requests_total + 1)) := by
  intro left
  induction left with
  | zero =>
    intro i m le ds hm
    constructor
    · intro r hr; simp [makeRequestLoop] at hr
    · intro e _; simp [makeRequestLoop]; omega
  | succ k ih =>
    intro i m le ds hm
    have hbump : ∀ st dur, (bumpMetrics m st dur).requests_success
        + (bumpMetrics m st dur).requests_failed = (bumpMetrics m st dur).requests_total := by
      intro st dur
      by_cases hst : st < 400 <;> simp [bumpMetrics, hst] <;> omega
    cases h : outcomes i with
    | response st text dur =>
      cases hp : parse_icap_response text with
      | ok r =>
        constructor
        · intro r' _; simp [makeRequestLoop, h, hp, hbump st dur]
        · intro e he; simp [makeRequestLoop, h, hp] at he
      | error pe =>
        simp only [makeRequestLoop, h, hp]
        exact ih (i + 1) _ _ _ (hbump st dur)
    | timeoutExn msg =>
      simp only [makeRequestLoop, h]
      exact ih (i + 1) _ _ _ hm
    | clientError msg =>
      simp only [makeRequestLoop, h]
      exact ih (i + 1) _ _ _ hm
    | otherExn msg =>
      simp only [makeRequestLoop, h]
      exact ih (i + 1) _ _ _ hm

theorem loop_all_fail (config : IcapConfig) (outcomes : Nat → AttemptOutcome)
    (hfail : ∀ j, (attemptFails (outcomes j)).isSome) :
    ∀ left, 0 < left → ∀ i m le ds,
      (makeRequestLoop config outcomes i left m le ds).result
        = .error ((attemptFails (outcomes (i + left - 1))).getD (.unexpectedErr []))
      ∧ (makeRequestLoop config outcomes i left m le ds).attempts = i + left := by
  intro left
  induction left with
  | zero => omega
  | succ k ih =>
    intro _ i m le ds
    cases h : outcomes i with
    | response st text dur =>
      cases hp : parse_icap_response text with
      | ok r =>
        exfalso
        have := hfail i
        rw [h] at this
        simp [attemptFails, hp] at this
      | error pe =>
        rcases Nat.eq_zero_or_pos k with hk | hk
        · subst hk
          simp [makeRequestLoop, h, hp, attemptFails]
        · simp only [makeRequestLoop, h, hp]
          have := ih hk (i + 1)
            (bumpMetrics m st dur)
            (some (.unexpectedErr ("Unexpected error: ".toList ++ pe.msg)))
            (ds ++ if i < config.retries then [retryDelay config i] else [])
          have harg : i + 1 + k - 1 = i + (k + 1) - 1 := by omega
          constructor
          · rw [this.1, harg]
          · rw [this.2]; omega
    | timeoutExn msg =>
      rcases Nat.eq_zero_or_pos k with hk | hk
      · subst hk
        simp [makeRequestLoop, h, attemptFails, wrapExn]
      · simp only [makeRequestLoop, h]
        have := ih hk (i + 1) m (some (wrapExn (.timeoutExn msg)))
          (ds ++ if i < config.retries then [retryDelay config i] else [])
        have harg : i + 1 + k - 1 = i + (k + 1) - 1 := by omega
        constructor
        · rw [this.1, harg]
        · rw [this.2]; omega
    | clientError msg =>
      rcases Nat.eq_zero_or_pos k with hk | hk
      · subst hk
        simp [makeRequestLoop, h, attemptFails, wrapExn]
      · simp only [makeRequestLoop, h]
        have := ih hk (i + 1) m (some (wrapExn (.clientError msg)))
          (ds ++ if i < config.retries then [retryDelay config i] else [])
        have harg : i + 1 + k - 1 = i + (k + 1) - 1 := by omega
        constructor
        · rw [this.1, harg]
        · rw [this.2]; omega
    | otherExn msg =>
      rcases Nat.eq_zero_or_pos k with hk | hk
      · subst hk
        simp [makeRequestLoop, h, attemptFails, wrapExn]
      · simp only [makeRequestLoop, h]
        have := ih hk (i + 1) m (some (wrapExn (.otherExn msg)))
          (ds ++ if i < config.retries then [retryDelay config i] else [])
        have harg : i + 1 + k - 1 = i + (k + 1) - 1 := by omega
        constructor
        · rw [this.1, harg]
        · rw [this.2]; omega

theorem wrapExn_ne_protocol (o : AttemptOutcome) (msg : PyStr) :
    wrapExn o ≠ .protocolErr msg := by
  cases o <;> simp [wrapExn]

theorem loop_no_protocol (config : IcapConfig) (outcomes : Nat → AttemptOutcome) :
    ∀ left i m le ds,
      (∀ e, le = some e → ∀ msg, e ≠ .protocolErr msg) →
      ∀ msg, (makeRequestLoop config outcomes i left m le ds).result ≠ .error (.protocolErr msg) := by
  intro left
  induction left with
  | zero =>
    intro i m le ds hle msg
    cases le with
    | none => simp [makeRequestLoop]
    | some e =>
      simp only [makeRequestLoop, Option.getD]
      intro hc
      exact hle e rfl msg (by injection hc)
  | succ k ih =>
    intro i m le ds hle msg
    cases h : outcomes i with
    | response st text dur =>
      cases hp : parse_icap_response text with
      | ok r => simp [makeRequestLoop, h, hp]
      | error pe =>
        simp only [makeRequestLoop, h, hp]
        exact ih (i + 1) _ _ _ (by intro e he msg2; injection he with h2; subst h2; simp) msg
    | timeoutExn m' =>
      simp only [makeRequestLoop, h]
      exact ih (i + 1) _ _ _
        (by intro e he msg2; injection he with h2; subst h2; exact wrapExn_ne_protocol _ _) msg
    | clientError m' =>
      simp only [makeRequestLoop, h]
      exact ih (i + 1) _ _ _
        (by intro e he msg2; injection he with h2; subst h2; exact wrapExn_ne_protocol _ _) msg
    | otherExn m' =>
      simp only [makeRequestLoop, h]
      exact ih (i + 1) _ _ _
        (by intro e he msg2; injection he with h2; subst h2; exact wrapExn_ne_protocol _ _) msg

theorem loop_delays (config : IcapConfig) (outcomes : Nat → AttemptOutcome) :
    ∀ left i m le ds,
      i + left = config.retries + 1 →
      ds = (List.range (min i config.retries)).map (retryDelay config) →
      ∃ k, k ≤ config.retries
        ∧ (makeRequestLoop config outcomes i left m le ds).delays
          = (List.range k).map (retryDelay config) := by
  intro left
  induction left with
  | zero =>
    intro i m le ds hi hds
    exact ⟨min i config.retries, Nat.min_le_right _ _, by simp [makeRequestLoop, hds]⟩
  | succ k ih =>
    intro i m le ds hi hds
    have hstep : (ds ++ if i < config.retries then [retryDelay config i] else [])
        = (List.range (min (i + 1) config.retries)).map (retryDelay config) := by
      by_cases hir : i < config.retries
      · have h1 : min i config.retries = i := by omega
        have h2 : min (i + 1) config.retries = i + 1 := by omega
        rw [hds, h1, h2, if_pos hir, List.range_succ]
        simp
      · have h1 : min i config.retries = config.retries := by omega
        have h2 : min (i + 1) config.retries = config.retries := by omega
        rw [hds, h1, h2, if_neg hir]
        simp
    cases h : outcomes i with
    | response st text dur =>
      cases hp : parse_icap_response text with
      | ok r =>
        exact ⟨min i config.retries, Nat.min_le_right _ _, by simp [makeRequestLoop, h, hp, hds]⟩
      | error pe =>
        simp only [makeRequestLoop, h, hp]
        exact ih (i + 1) _ _ _ (by omega) hstep
    | timeoutExn msg =>
      simp only [makeRequestLoop, h]
      exact ih (i + 1) _ _ _ (by omega) hstep
    | clientError msg =>
      simp only [makeRequestLoop, h]
      exact ih (i + 1) _ _ _ (by omega) hstep
    | otherExn msg =>
      simp only [makeRequestLoop, h]
      exact ih (i + 1) _ _ _ (by omega) hstep

/-! ### Concrete fixtures -/

/-- A minimal headerless, bodyless request payload `GET / HTTP/1.1`. -/
def reqGet : HttpRequest :=
  ⟨"GET".toList, "/".toList, "HTTP/1.1".toList, [], none⟩

/-- The OPTIONS response text of the spec's C4 example. -/
def inputC4 : PyStr :=
  "ICAP/1.0 204 No Content\r\nISTag: X\r\nService: S\r\nMethods: REQMOD, RESPMOD, OPTIONS\r\n\r\n".toList

/-- What `_parse_icap_response` returns on `inputC4`. -/
def respC4 : IcapResponse :=
  ⟨"ICAP/1.0".toList, 204, "No Content".toList,
   [("ISTag".toList, "X".toList), ("Service".toList, "S".toList),
    ("Methods".toList, "REQMOD, RESPMOD, OPTIONS".toList)],
   none, none, none⟩

/-- A zero-retry configuration. -/
def cfg0 : IcapConfig := ⟨0, 1, 60, 2⟩

/-- A one-retry configuration. -/
def cfg1 : IcapConfig := ⟨1, 1, 60, 2⟩

/-- A transport that always raises a timeout. -/
def outTimeout : Nat → AttemptOutcome := fun _ => .timeoutExn "t".toList

/-- A transport that always answers with a malformed status line. -/
def outBadStatus : Nat → AttemptOutcome := fun _ => .response 200 "ICAP/1.0".toList 0

/-! ### Claim C1 -/

/-- C1: `_build_encapsulated_header` does NOT compute `null-body=<N>` from
the payload: it returns the fixed sentinel 75 for every request payload and
120 for every response payload, while the serialized header block of the
`GET / HTTP/1.1` payload is 16 bytes long.  This is the latent protocol
bug the spec flags: the code contradicts the spec's stated contract. -/
theorem c1_fixed_sentinel_offsets :
    (∀ r : HttpRequest, build_encapsulated_header (.request r) = "req-hdr=0, null-body=75".toList)
    ∧ (∀ r : HttpResponse, build_encapsulated_header (.response r) = "res-hdr=0, null-body=120".toList)
    ∧ (serialize_http_data (.request reqGet)).length = 16
    ∧ build_encapsulated_header (.request reqGet) ≠ "req-hdr=0, null-body=16".toList :=
  ⟨fun _ => rfl, fun _ => rfl, by decide, by decide⟩

/-! ### Claim C4 -/

/-- C4, counterexample: on the spec's example input the parsed header map
keeps the wire-format key case (`ISTag`), so the claimed lowercase keys
(`istag`, …) are absent from the result. -/
theorem c4_counterexample :
    parse_icap_response inputC4 = .ok respC4
    ∧ dictGet respC4.headers "istag".toList = none
    ∧ dictGet respC4.headers "service".toList = none
    ∧ dictGet respC4.headers "methods".toList = none := by
  refine ⟨by decide, by decide, by decide, by decide⟩

/-- C4, amended: the example input parses to `status_code = 204`, reason
`No Content`, body absent, and headers mapping the original-case keys
`ISTag`, `Service`, `Methods` to the claimed values. -/
theorem c4_amended_parse_example :
    parse_icap_response inputC4 = .ok respC4
    ∧ respC4.status_code = 204
    ∧ respC4.reason = "No Content".toList
    ∧ respC4.body = none
    ∧ dictGet respC4.headers "ISTag".toList = some "X".toList
    ∧ dictGet respC4.headers "Service".toList = some "S".toList
    ∧ dictGet respC4.headers "Methods".toList = some "REQMOD, RESPMOD, OPTIONS".toList := by
  refine ⟨by decide, by decide, by decide, by decide, by decide, by decide, by decide⟩

/-! ### Claim C2, counterexample -/

/-- C2, counterexample: with `retries = 0` and a transport whose single
attempt raises before a response arrives, no retry ever happens, yet
`requests_total` stays 0 (the attempt did not increment it) and
`requests_success + requests_failed = 1 ≠ requests_total`. -/
theorem c2_counterexample :
    (make_request cfg0 outTimeout).attempts = 1
    ∧ (make_request cfg0 outTimeout).delays = []
    ∧ (make_request cfg0 outTimeout).metrics.requests_total = 0
    ∧ (make_request cfg0 outTimeout).metrics.requests_success
        + (make_request cfg0 outTimeout).metrics.requests_failed = 1 := by
  refine ⟨by decide, by decide, by decide, by decide⟩

/-! ### Claim C3, counterexample -/

/-- C3, counterexample: a response whose status line is the single token
`ICAP/1.0` makes the call fail with the generic
`IcapError(Unexpected error: list index out of range)` — not
`IcapProtocolError` — and the failing parse consumes the retry budget:
with `retries = 1` a second attempt is performed. -/
theorem c3_counterexample :
    (make_request cfg1 outBadStatus).attempts = 2
    ∧ (make_request cfg1 outBadStatus).result
        = .error (.unexpectedErr "Unexpected error: list index out of range".toList) := by
  refine ⟨by decide, by decide⟩

/-! ### Claim C6, counterexample -/

/-- C6, counterexample: `_parse_icap_response` is not a left inverse of
`_serialize_http_data` on request payloads: serializing the
printable-ASCII payload `GET / HTTP/1.1` and parsing the result raises
`ValueError` on `int(chr(47))`, recovering nothing. -/
theorem c6_counterexample :
    parse_icap_response (serializeLines (.request reqGet)) = .error (.valueError "/".toList) := by
  decide

/-! ### Claim C8 -/

/-- C8: `health_check` never propagates an error — it is a total function
of the Options outcome.  Any raised error yields the structured unhealthy
dictionary carrying the error's message; a returned response with header
`Methods: REQMOD,RESPMOD` yields the methods list `[REQMOD, RESPMOD]`, and
its status is `healthy` iff `status_code < 400`. -/
theorem c8_health_check_total (outcome : Except IcapErr IcapResponse) :
    (∀ e, outcome = .error e →
      health_check outcome = ⟨"unhealthy".toList, none, none, none, none, some e.msg⟩)
    ∧ (∀ resp, outcome = .ok resp →
        dictGet resp.headers "Methods".toList = some "REQMOD,RESPMOD".toList →
        (health_check outcome).methods = some ["REQMOD".toList, "RESPMOD".toList]
        ∧ ((health_check outcome).status = "healthy".toList ↔ resp.status_code < 400)) := by
  constructor
  · rintro e rfl
    rfl
  · rintro resp rfl hm
    constructor
    · have h2 : (health_check (Except.ok resp)).methods
          = some (match dictGet resp.headers "Methods".toList with
                  | some v => if v = [] then [] else pySplitAll ',' v
                  | none => []) := rfl
      rw [h2, hm]
      decide
    · by_cases h : resp.status_code < 400 <;> simp [health_check, h]

/-- Closed witness for C8 at a concrete healthy response and a concrete
thrown connection error. -/
theorem c8_witness :
    (health_check (.ok ⟨"ICAP/1.0".toList, 200, "OK".toList,
        [("Methods".toList, "REQMOD,RESPMOD".toList)], none, none, none⟩)).methods
      = some ["REQMOD".toList, "RESPMOD".toList]
    ∧ health_check (.error (.connectionErr "boom".toList))
      = ⟨"unhealthy".toList, none, none, none, none, some "boom".toList⟩ :=
  ⟨((c8_health_check_total (.ok ⟨"ICAP/1.0".toList, 200, "OK".toList,
      [("Methods".toList, "REQMOD,RESPMOD".toList)], none, none, none⟩)).2 _ rfl (by decide)).1,
   (c8_health_check_total (.error (.connectionErr "boom".toList))).1 _ rfl⟩

/-! ### String lemmas -/

theorem breakOn_none (sep : Char) (s : PyStr) (h : sep ∉ s) : breakOn sep s = (s, none) := by
  induction s with
  | nil => rfl
  | cons c cs ih =>
    have hc : c ≠ sep := fun e => h (e ▸ List.mem_cons_self c cs)
    have hcs : sep ∉ cs := fun m => h (List.mem_cons_of_mem c m)
    simp [breakOn, hc, ih hcs]

theorem breakOn_append (sep : Char) (a b : PyStr) (h : sep ∉ a) :
    breakOn sep (a ++ sep :: b) = (a, some b) := by
  induction a with
  | nil => simp [breakOn]
  | cons c cs ih =>
    have hc : c ≠ sep := fun e => h (e ▸ List.mem_cons_self c cs)
    have hcs : sep ∉ cs := fun m => h (List.mem_cons_of_mem c m)
    simp [breakOn, hc, ih hcs]

theorem pySplit1_append (sep : Char) (a b : PyStr) (h : sep ∉ a) :
    pySplit1 sep (a ++ sep :: b) = [a, b] := by
  simp [pySplit1, breakOn_append sep a b h]

theorem pySplit2_three (v c r : PyStr) (hv : ' ' ∉ v) (hc : ' ' ∉ c) :
    pySplit2 ' ' (v ++ ' ' :: (c ++ ' ' :: r)) = [v, c, r] := by
  simp [pySplit2, breakOn_append ' ' v (c ++ ' ' :: r) hv, pySplit1_append ' ' c r hc]

theorem splitCRLF_cons_ne (c : Char) (cs : PyStr) (hc : c ≠ '\r') :
    splitCRLF (c :: cs)
      = (match splitCRLF cs with
         | [] => [[c]]
         | l :: ls => (c :: l) :: ls) := by
  conv_lhs => rw [splitCRLF.eq_def]
  split
  · rename_i heq
    exact absurd heq (by simp)
  · rename_i rest heq
    injection heq with h1 _
    exact absurd h1 hc
  · rename_i cx rx hguard heq
    injection heq with h1 h2
    subst h1
    subst h2
    rfl

theorem splitCRLF_no_cr (l : PyStr) (h : '\r' ∉ l) : splitCRLF l = [l] := by
  induction l with
  | nil => rfl
  | cons c cs ih =>
    have hc : c ≠ '\r' := fun e => h (e ▸ List.mem_cons_self c cs)
    have hcs : '\r' ∉ cs := fun m => h (List.mem_cons_of_mem c m)
    rw [splitCRLF_cons_ne c cs hc, ih hcs]

theorem splitCRLF_append (l s : PyStr) (h : '\r' ∉ l) :
    splitCRLF (l ++ '\r' :: '\n' :: s) = l :: splitCRLF s := by
  induction l with
  | nil => simp [splitCRLF]
  | cons c cs ih =>
    have hc : c ≠ '\r' := fun e => h (e ▸ List.mem_cons_self c cs)
    have hcs : '\r' ∉ cs := fun m => h (List.mem_cons_of_mem c m)
    rw [List.cons_append, splitCRLF_cons_ne c _ hc, ih hcs]

theorem splitCRLF_joinCRLF (L : List PyStr) (hne : L ≠ [])
    (h : ∀ l ∈ L, '\r' ∉ l) : splitCRLF (joinCRLF L) = L := by
  induction L with
  | nil => exact absurd rfl hne
  | cons l ls ih =>
    cases ls with
    | nil => exact splitCRLF_no_cr l (h l (List.mem_cons_self _ _))
    | cons l2 ls2 =>
      have hjoin : joinCRLF (l :: l2 :: ls2) = l ++ '\r' :: '\n' :: joinCRLF (l2 :: ls2) := rfl
      rw [hjoin, splitCRLF_append l _ (h l (List.mem_cons_self _ _)),
        ih (by simp) (fun x hx => h x (List.mem_cons_of_mem l hx))]

theorem pyStrip_eq_self (s : PyStr) (h : ∀ c ∈ s, isPySpace c = false) : pyStrip s = s := by
  have h1 : s.dropWhile isPySpace = s := by
    cases s with
    | nil => rfl
    | cons c cs => simp [List.dropWhile_cons, h c (List.mem_cons_self _ _)]
  have h2 : s.reverse.dropWhile isPySpace = s.reverse := by
    cases hs : s.reverse with
    | nil => rfl
    | cons c cs =>
      have hc : c ∈ s := by
        have : c ∈ s.reverse := hs ▸ List.mem_cons_self _ _
        simpa using this
      simp [List.dropWhile_cons, h c hc]
  unfold pyStrip
  rw [h1, h2, List.reverse_reverse]

theorem pyStrip_cons_space (v : PyStr) : pyStrip (' ' :: v) = pyStrip v := by
  unfold pyStrip
  simp [List.dropWhile_cons, isPySpace]

theorem pyStrip_ne_nil (s : PyStr) (c : Char) (hc : c ∈ s) (hcs : isPySpace c = false) :
    pyStrip s ≠ [] := by
  unfold pyStrip
  intro hcontra
  rw [List.reverse_eq_nil_iff, List.dropWhile_eq_nil_iff] at hcontra
  have hc1 : c ∈ s.dropWhile isPySpace := by
    have hsplit := List.takeWhile_append_dropWhile (p := isPySpace) (l := s)
    rcases (List.mem_append.mp (hsplit ▸ hc)) with h1 | h1
    · exact absurd (List.mem_takeWhile_imp h1) (by simp [hcs])
    · exact h1
  exact absurd (hcontra c (by simpa using hc1)) (by simp [hcs])

/-! ### Header-loop lemmas -/

theorem parseHeaderLines_skip (hs1 : List PyStr) (bad : PyStr) (rest2 : List PyStr)
    (h1 : ∀ l ∈ hs1, l ≠ []) (hbn : bad ≠ []) (hbc : ':' ∉ bad) :
    ∀ acc, parseHeaderLines acc (hs1 ++ bad :: rest2) = parseHeaderLines acc (hs1 ++ rest2) := by
  induction hs1 with
  | nil =>
    intro acc
    simp only [List.nil_append, parseHeaderLines, if_neg hbn, breakOn_none ':' bad hbc]
  | cons l t ih =>
    intro acc
    have hl : l ≠ [] := h1 l (List.mem_cons_self _ _)
    have ht : ∀ x ∈ t, x ≠ [] := fun x hx => h1 x (List.mem_cons_of_mem l hx)
    simp only [List.cons_append, parseHeaderLines, if_neg hl]
    cases hb : breakOn ':' l with
    | mk n ov =>
      cases ov with
      | none => exact ih ht _
      | some v => exact ih ht _

theorem parseHeaderLines_isSome (pre rest2 : List PyStr) :
    ∀ acc, ((parseHeaderLines acc (pre ++ ([] : PyStr) :: rest2)).2).isSome := by
  induction pre with
  | nil => intro acc; simp [parseHeaderLines]
  | cons l t ih =>
    intro acc
    by_cases hl : l = []
    · subst hl; simp [parseHeaderLines]
    · simp only [List.cons_append, parseHeaderLines, if_neg hl]
      cases hb : breakOn ':' l with
      | mk n ov =>
        cases ov with
        | none => exact ih _
        | some v => exact ih _

/-! ### Claim C9 -/

/-- C9: a header-section line with no colon never makes the parser fail and
contributes no header entry: parsing a response whose header section is
`hs1 ++ [bad] ++ hs2` (with `bad` colon-free and nonempty, and the lines
before it nonempty so that `bad` sits before the first blank line) gives
exactly the same result as parsing the same response without the `bad`
line — the remaining headers and the body are parsed normally. -/
theorem c9_nocolon_line_skipped (status bad : PyStr) (hs1 hs2 rest : List PyStr)
    (hst : '\r' ∉ status)
    (h1 : ∀ l ∈ hs1, l ≠ [] ∧ '\r' ∉ l)
    (h2 : ∀ l ∈ hs2, '\r' ∉ l)
    (hbn : bad ≠ []) (hbr : '\r' ∉ bad) (hbc : ':' ∉ bad)
    (hrest : ∀ l ∈ rest, '\r' ∉ l) :
    parse_icap_response (joinCRLF (status :: (hs1 ++ bad :: (hs2 ++ ([] : PyStr) :: rest))))
      = parse_icap_response (joinCRLF (status :: (hs1 ++ (hs2 ++ ([] : PyStr) :: rest)))) := by
  have hmem1 : ∀ l ∈ status :: (hs1 ++ bad :: (hs2 ++ ([] : PyStr) :: rest)), '\r' ∉ l := by
    intro l hl
    rcases List.mem_cons.mp hl with rfl | hl2
    · exact hst
    rcases List.mem_append.mp hl2 with hx | hl3
    · exact (h1 l hx).2
    rcases List.mem_cons.mp hl3 with rfl | hl4
    · exact hbr
    rcases List.mem_append.mp hl4 with hx | hl5
    · exact h2 l hx
    rcases List.mem_cons.mp hl5 with rfl | hx
    · simp
    · exact hrest l hx
  have hmem2 : ∀ l ∈ status :: (hs1 ++ (hs2 ++ ([] : PyStr) :: rest)), '\r' ∉ l := by
    intro l hl
    rcases List.mem_cons.mp hl with rfl | hl2
    · exact hst
    rcases List.mem_append.mp hl2 with hx | hl3
    · exact (h1 l hx).2
    rcases List.mem_append.mp hl3 with hx | hl4
    · exact h2 l hx
    rcases List.mem_cons.mp hl4 with rfl | hx
    · simp
    · exact hrest l hx
  have hL1 := splitCRLF_joinCRLF _ (by simp) hmem1
  have hL2 := splitCRLF_joinCRLF _ (by simp) hmem2
  have hskip := parseHeaderLines_skip hs1 bad (hs2 ++ ([] : PyStr) :: rest)
    (fun l hl => (h1 l hl).1) hbn hbc []
  obtain ⟨bl, hbl⟩ : ∃ bl,
      (parseHeaderLines [] (hs1 ++ (hs2 ++ ([] : PyStr) :: rest))).2 = some bl := by
    have := parseHeaderLines_isSome (hs1 ++ hs2) rest []
    rw [List.append_assoc] at this
    exact Option.isSome_iff_exists.mp this
  simp only [parse_icap_response, hL1, hL2, List.headI_cons, List.tail_cons]
  rw [hskip, hbl]

/-- Closed witness for C9 at a concrete response with the colon-free header
line `nocolonhere` between two well-formed headers. -/
theorem c9_witness :
    parse_icap_response (joinCRLF ("ICAP/1.0 200 OK".toList
        :: (["Good: a".toList] ++ "nocolonhere".toList
            :: (["Also: b".toList] ++ ([] : PyStr) :: ["bodyline".toList]))))
      = parse_icap_response (joinCRLF ("ICAP/1.0 200 OK".toList
        :: (["Good: a".toList] ++ (["Also: b".toList] ++ ([] : PyStr) :: ["bodyline".toList])))) :=
  c9_nocolon_line_skipped "ICAP/1.0 200 OK".toList "nocolonhere".toList
    ["Good: a".toList] ["Also: b".toList] ["bodyline".toList]
    (by decide) (by decide) (by decide) (by decide) (by decide) (by decide) (by decide)

/-! ### Claim C10 -/

theorem decodeUtf8Ignore_cons (b : Nat) (rest : PyBytes) :
    decodeUtf8Ignore (b :: rest)
      = (match (utf8Step b rest).1 with
         | some c => c :: decodeUtf8Ignore (utf8Step b rest).2
         | none => decodeUtf8Ignore (utf8Step b rest).2) := by
  rw [decodeUtf8Ignore.eq_def]
  split
  · rename_i heq
    exact absurd heq (by simp)
  · rename_i b2 rest2 heq
    injection heq with e1 e2
    subst e1
    subst e2
    split
    · rename_i c r heq2
      rw [heq2]
    · rename_i r heq2
      rw [heq2]

theorem decodeUtf8Ignore_ascii_invalid (bs : PyBytes) (h : ∀ b ∈ bs, b < 128 ∨ 248 ≤ b) :
    decodeUtf8Ignore bs = (bs.filter (fun b => b < 128)).map Char.ofNat := by
  induction bs with
  | nil => rw [decodeUtf8Ignore.eq_def]; rfl
  | cons b rest ih =>
    have hrest : ∀ x ∈ rest, x < 128 ∨ 248 ≤ x := fun x hx => h x (List.mem_cons_of_mem b hx)
    rcases h b (List.mem_cons_self _ _) with hb | hb
    · have hstep : utf8Step b rest = (some (Char.ofNat b), rest) := by
        simp [utf8Step, hb]
      rw [decodeUtf8Ignore_cons, hstep]
      simp only [List.filter_cons]
      rw [ih hrest]
      simp [hb]
    · have h1 : ¬ b < 128 := by omega
      have h2 : ¬ (194 ≤ b ∧ b ≤ 223) := by omega
      have h3 : ¬ (224 ≤ b ∧ b ≤ 239) := by omega
      have h4 : ¬ (240 ≤ b ∧ b ≤ 244) := by omega
      have hstep : utf8Step b rest = (none, rest) := by
        simp [utf8Step, h1, h2, h3, h4]
      rw [decodeUtf8Ignore_cons, hstep]
      simp only [List.filter_cons]
      rw [ih hrest]
      simp [h1]

theorem decodeUtf8Ignore_all_ascii (bs : PyBytes) (h : ∀ b ∈ bs, b < 128) :
    decodeUtf8Ignore bs = bs.map Char.ofNat := by
  rw [decodeUtf8Ignore_ascii_invalid bs (fun b hb => Or.inl (h b hb))]
  congr 1
  exact List.filter_eq_self.mpr (fun b hb => by simp [h b hb])

/-- C10: `_serialize_http_data` never fails on a body that is not valid
UTF-8 — in the embedding it is total because `decode(utf8, errors=ignore)`
is — and the bytes of invalid sequences are silently dropped from the
output: for a body mixing ASCII bytes with always-invalid bytes
(`0xF8`–`0xFF` can start no UTF-8 sequence), the decoded body is exactly
the ASCII bytes, and serializing the payload gives the same bytes as
serializing the payload whose body had the invalid bytes removed. -/
theorem c10_invalid_bytes_dropped (r : HttpResponse) (bs : PyBytes) (hne : bs ≠ [])
    (h : ∀ b ∈ bs, b < 128 ∨ 248 ≤ b) (hf : bs.filter (fun b => b < 128) ≠ []) :
    decodeUtf8Ignore bs = (bs.filter (fun b => b < 128)).map Char.ofNat
    ∧ serialize_http_data (.response { r with body := some bs })
      = serialize_http_data (.response
          { r with body := some (bs.filter (fun b => b < 128)) }) := by
  refine ⟨decodeUtf8Ignore_ascii_invalid bs h, ?_⟩
  have hdec1 := decodeUtf8Ignore_ascii_invalid bs h
  have hdec2 : decodeUtf8Ignore (bs.filter (fun b => b < 128))
      = (bs.filter (fun b => b < 128)).map Char.ofNat := by
    refine decodeUtf8Ignore_all_ascii _ (fun b hb => ?_)
    have := List.of_mem_filter hb
    simpa using this
  simp [serialize_http_data, serializeLines, HttpData.headers, HttpData.body,
    hne, hf, hdec1, hdec2]

/-- Closed witness for C10: the body bytes `72, 255, 105` (`H`, an invalid
byte, `i`) serialize without error, identically to the body `72, 105`. -/
theorem c10_witness :
    decodeUtf8Ignore [72, 255, 105]
      = (([72, 255, 105] : PyBytes).filter (fun b => b < 128)).map Char.ofNat
    ∧ serialize_http_data (.response ⟨"HTTP/1.1".toList, 200, "OK".toList, [],
        some [72, 255, 105]⟩)
      = serialize_http_data (.response ⟨"HTTP/1.1".toList, 200, "OK".toList, [],
        some (([72, 255, 105] : PyBytes).filter (fun b => b < 128))⟩) :=
  c10_invalid_bytes_dropped ⟨"HTTP/1.1".toList, 200, "OK".toList, [], none⟩
    [72, 255, 105] (by decide) (by decide) (by decide)

/-! ### Integer string round-trip lemmas -/

theorem digit_char_facts (d : Nat) (hd : d < 10) :
    (Char.ofNat (48 + d)).toNat = 48 + d
    ∧ (Char.ofNat (48 + d)).isDigit = true
    ∧ isPySpace (Char.ofNat (48 + d)) = false
    ∧ Char.ofNat (48 + d) ≠ '-' ∧ Char.ofNat (48 + d) ≠ '+'
    ∧ Char.ofNat (48 + d) ≠ ' ' ∧ Char.ofNat (48 + d) ≠ '\r' := by
  interval_cases d <;> refine ⟨by decide, by decide, by decide, by decide, by decide, by decide, by decide⟩

theorem natToStr_chars (n : Nat) : ∀ c ∈ natToStr n, ∃ d, d < 10 ∧ c = Char.ofNat (48 + d) := by
  intro c hc
  unfold natToStr at hc
  by_cases hn : n = 0
  · rw [if_pos hn] at hc
    exact ⟨0, by omega, by simpa using hc⟩
  · rw [if_neg hn] at hc
    rw [List.mem_reverse, List.mem_map] at hc
    obtain ⟨d, hd, rfl⟩ := hc
    exact ⟨d, Nat.lt_of_lt_of_le (Nat.digits_lt_base (by norm_num) hd) (by norm_num), rfl⟩

theorem natToStr_ne_nil (n : Nat) : natToStr n ≠ [] := by
  unfold natToStr
  by_cases hn : n = 0
  · simp [hn]
  · simp only [if_neg hn]
    simp [Nat.digits_ne_nil_iff_ne_zero, hn]

theorem digitsToNat_natToStr (n : Nat) : digitsToNat (natToStr n) = n := by
  by_cases hn : n = 0
  · subst hn; decide
  · unfold natToStr digitsToNat
    rw [if_neg hn, List.foldl_reverse]
    have hfr : ∀ (L : List Nat), (∀ d ∈ L, d < 10) →
        List.foldr (fun c a => 10 * a + (c.toNat - 48)) 0 (L.map (fun d => Char.ofNat (48 + d)))
          = Nat.ofDigits 10 L := by
      intro L
      induction L with
      | nil => intro _; simp [Nat.ofDigits]
      | cons d t iht =>
        intro hall
        have hd := hall d (List.mem_cons_self _ _)
        have ht := fun x hx => hall x (List.mem_cons_of_mem d hx)
        simp only [List.map_cons, List.foldr_cons, iht ht, Nat.ofDigits_cons,
          (digit_char_facts d hd).1]
        omega
    have hdig := hfr (Nat.digits 10 n) (fun d hd => Nat.digits_lt_base (by norm_num) hd)
    rw [hdig, Nat.ofDigits_digits]

theorem pyStrip_natToStr (n : Nat) : pyStrip (natToStr n) = natToStr n := by
  refine pyStrip_eq_self _ (fun c hc => ?_)
  obtain ⟨d, hd, rfl⟩ := natToStr_chars n c hc
  exact (digit_char_facts d hd).2.2.1

theorem pyInt_natToStr (n : Nat) : pyInt (natToStr n) = some (n : Int) := by
  unfold pyInt
  rw [pyStrip_natToStr]
  cases hs : natToStr n with
  | nil => exact absurd hs (natToStr_ne_nil n)
  | cons c ds =>
    have hc : ∃ d, d < 10 ∧ c = Char.ofNat (48 + d) :=
      natToStr_chars n c (hs ▸ List.mem_cons_self _ _)
    obtain ⟨d, hd, rfl⟩ := hc
    have hall : (Char.ofNat (48 + d) :: ds).all Char.isDigit = true := by
      rw [← hs, List.all_eq_true]
      intro c2 hc2
      obtain ⟨d2, hd2, rfl⟩ := natToStr_chars n c2 hc2
      exact (digit_char_facts d2 hd2).2.1
    simp only [pyIntCore, if_neg (digit_char_facts d hd).2.2.2.1,
      if_neg (digit_char_facts d hd).2.2.2.2.1]
    unfold digitsVal
    rw [if_pos ⟨by simp, hall⟩, ← hs, digitsToNat_natToStr]
    rfl

theorem intToStr_no_space_cr (z : Int) : ' ' ∉ intToStr z ∧ '\r' ∉ intToStr z := by
  unfold intToStr
  by_cases hz : z < 0
  · rw [if_pos hz]
    constructor
    · intro hmem
      rcases List.mem_cons.mp hmem with he | hm
      · exact absurd he.symm (by decide)
      · obtain ⟨d, hd, he⟩ := natToStr_chars _ _ hm
        exact absurd he.symm (digit_char_facts d hd).2.2.2.2.2.1
    · intro hmem
      rcases List.mem_cons.mp hmem with he | hm
      · exact absurd he.symm (by decide)
      · obtain ⟨d, hd, he⟩ := natToStr_chars _ _ hm
        exact absurd he.symm (digit_char_facts d hd).2.2.2.2.2.2
  · rw [if_neg hz]
    constructor
    · intro hm
      obtain ⟨d, hd, he⟩ := natToStr_chars _ _ hm
      exact absurd he.symm (digit_char_facts d hd).2.2.2.2.2.1
    · intro hm
      obtain ⟨d, hd, he⟩ := natToStr_chars _ _ hm
      exact absurd he.symm (digit_char_facts d hd).2.2.2.2.2.2

theorem pyInt_intToStr (z : Int) : pyInt (intToStr z) = some z := by
  unfold intToStr
  by_cases hz : z < 0
  · rw [if_pos hz]
    unfold pyInt
    have hstrip : pyStrip ('-' :: natToStr (-z).toNat) = '-' :: natToStr (-z).toNat := by
      refine pyStrip_eq_self _ (fun c hc => ?_)
      rcases List.mem_cons.mp hc with rfl | hm
      · decide
      · obtain ⟨d, hd, rfl⟩ := natToStr_chars _ _ hm
        exact (digit_char_facts d hd).2.2.1
    rw [hstrip]
    have hds : digitsVal (natToStr (-z).toNat) = some (-z).toNat := by
      unfold digitsVal
      rw [if_pos ⟨natToStr_ne_nil _, by
        rw [List.all_eq_true]
        intro c2 hc2
        obtain ⟨d2, hd2, rfl⟩ := natToStr_chars _ _ hc2
        exact (digit_char_facts d2 hd2).2.1⟩]
      rw [digitsToNat_natToStr]
    have hcore : pyIntCore ('-' :: natToStr (-z).toNat) = some (-(((-z).toNat : Nat) : Int)) := by
      simp [pyIntCore, hds, Int.ofNat_eq_natCast]
    rw [hcore]
    congr 1
    omega
  · rw [if_neg hz]
    rw [pyInt_natToStr]
    congr 1
    omega

/-! ### Round-trip lemmas for headers and bodies -/

theorem char_toNat_ofNat_lt (b : Nat) (hb : b < 55296) : (Char.ofNat b).toNat = b := by
  unfold Char.ofNat
  rw [dif_pos (Or.inl hb)]
  simp [Char.ofNatAux, Char.toNat]
  rfl

theorem char_ofNat_ne_cr (b : Nat) (h32 : 32 ≤ b) (h127 : b < 127) : Char.ofNat b ≠ '\r' := by
  intro he
  have hv := char_toNat_ofNat_lt b (by omega)
  rw [he, show ('\r').toNat = 13 from rfl] at hv
  omega

theorem utf8Encode_map_ascii (bs : PyBytes) (h : ∀ b ∈ bs, b < 128) :
    utf8Encode (bs.map Char.ofNat) = bs := by
  induction bs with
  | nil => rfl
  | cons b rest ih =>
    have hb := h b (List.mem_cons_self _ _)
    have hrest := fun x hx => h x (List.mem_cons_of_mem b hx)
    have hchar : utf8EncodeChar (Char.ofNat b) = [b] := by
      unfold utf8EncodeChar
      rw [char_toNat_ofNat_lt b (by omega)]
      simp [hb]
    simp only [List.map_cons, utf8Encode, List.flatten_cons]
    rw [show (List.map Char.ofNat rest).map utf8EncodeChar
        = ((rest.map Char.ofNat).map utf8EncodeChar) from rfl]
    have := ih hrest
    unfold utf8Encode at this
    rw [hchar, this]
    rfl

theorem dictInsert_append (acc : PyDict) (k v : PyStr) (hk : ∀ p ∈ acc, p.1 ≠ k) :
    dictInsert acc k v = acc ++ [(k, v)] := by
  induction acc with
  | nil => rfl
  | cons p t ih =>
    cases p with
    | mk k0 v0 =>
      have hne : k0 ≠ k := hk (k0, v0) (List.mem_cons_self _ _)
      simp only [dictInsert, if_neg hne, List.cons_append]
      rw [ih (fun q hq => hk q (List.mem_cons_of_mem _ hq))]

theorem parseHeaderLines_headers (hs : PyDict) (rest : List PyStr) :
    ∀ acc, (∀ p ∈ hs, ':' ∉ p.1 ∧ pyStrip p.1 = p.1 ∧ pyStrip p.2 = p.2) →
      (hs.map Prod.fst).Nodup →
      (∀ p ∈ hs, ∀ q ∈ acc, q.1 ≠ p.1) →
      parseHeaderLines acc ((hs.map (fun p => p.1 ++ ':' :: ' ' :: p.2)) ++ ([] : PyStr) :: rest)
        = (acc ++ hs, some rest) := by
  induction hs with
  | nil =>
    intro acc _ _ _
    simp [parseHeaderLines]
  | cons p t ih =>
    intro acc hp hnodup hdisj
    cases p with
    | mk n v =>
      have hline : n ++ ':' :: ' ' :: v ≠ [] := by
        cases n <;> simp
      have hcolon : ':' ∉ n := (hp (n, v) (List.mem_cons_self _ _)).1
      have hsn : pyStrip n = n := (hp (n, v) (List.mem_cons_self _ _)).2.1
      have hsv : pyStrip v = v := (hp (n, v) (List.mem_cons_self _ _)).2.2
      simp only [List.map_cons, List.cons_append, parseHeaderLines, if_neg hline,
        breakOn_append ':' n (' ' :: v) hcolon]
      rw [hsn, pyStrip_cons_space, hsv]
      have hins : dictInsert acc n v = acc ++ [(n, v)] :=
        dictInsert_append acc n v (fun q hq => hdisj (n, v) (List.mem_cons_self _ _) q hq)
      rw [hins]
      have hnd : (t.map Prod.fst).Nodup := by
        simpa using List.Nodup.of_cons hnodup
      have hnin : n ∉ t.map Prod.fst := by
        have := hnodup
        simp only [List.map_cons, List.nodup_cons] at this
        exact this.1
      have hdisj2 : ∀ p2 ∈ t, ∀ q ∈ acc ++ [(n, v)], q.1 ≠ p2.1 := by
        intro p2 hp2 q hq
        rcases List.mem_append.mp hq with hq1 | hq2
        · exact hdisj p2 (List.mem_cons_of_mem _ hp2) q hq1
        · have hqe : q = (n, v) := by simpa using hq2
          subst hqe
          intro he
          refine hnin ?_
          have hm := List.mem_map_of_mem Prod.fst hp2
          rw [← he] at hm
          exact hm
      have hfin := ih (acc ++ [(n, v)]) (fun q hq => hp q (List.mem_cons_of_mem _ hq)) hnd hdisj2
      exact hfin.trans (by rw [List.append_assoc]; rfl)

theorem parse_icap_wellformed (version : PyStr) (z : Int) (reason : PyStr)
    (hs : PyDict) (bodyLines : List PyStr)
    (hv1 : '\r' ∉ version) (hv2 : ' ' ∉ version) (hr1 : '\r' ∉ reason)
    (hh : ∀ p ∈ hs, ':' ∉ p.1 ∧ '\r' ∉ p.1 ∧ '\r' ∉ p.2
      ∧ pyStrip p.1 = p.1 ∧ pyStrip p.2 = p.2)
    (hnodup : (hs.map Prod.fst).Nodup)
    (hbl : ∀ l ∈ bodyLines, '\r' ∉ l) :
    parse_icap_response (joinCRLF ((version ++ ' ' :: (intToStr z ++ ' ' :: reason))
        :: (hs.map (fun p => p.1 ++ ':' :: ' ' :: p.2) ++ ([] : PyStr) :: bodyLines)))
      = .ok ⟨version, z, reason, hs,
          (if pyStrip (joinCRLF bodyLines) = [] then none
           else some (utf8Encode (joinCRLF bodyLines))), none, none⟩ := by
  have hmem : ∀ l ∈ (version ++ ' ' :: (intToStr z ++ ' ' :: reason))
      :: (hs.map (fun p => p.1 ++ ':' :: ' ' :: p.2) ++ ([] : PyStr) :: bodyLines),
      '\r' ∉ l := by
    intro l hl
    rcases List.mem_cons.mp hl with rfl | hl2
    · intro hm
      rcases List.mem_append.mp hm with h | h
      · exact hv1 h
      rcases List.mem_cons.mp h with he | h
      · exact absurd he (by decide)
      rcases List.mem_append.mp h with h | h
      · exact (intToStr_no_space_cr z).2 h
      rcases List.mem_cons.mp h with he | h
      · exact absurd he (by decide)
      · exact hr1 h
    rcases List.mem_append.mp hl2 with h | h
    · obtain ⟨p, hp, rfl⟩ := List.mem_map.mp h
      intro hm
      rcases List.mem_append.mp hm with h2 | h2
      · exact (hh p hp).2.1 h2
      rcases List.mem_cons.mp h2 with he | h2
      · exact absurd he (by decide)
      rcases List.mem_cons.mp h2 with he | h2
      · exact absurd he (by decide)
      · exact (hh p hp).2.2.1 h2
    rcases List.mem_cons.mp h with rfl | h
    · simp
    · exact hbl l h
  have hsplit := splitCRLF_joinCRLF _ (by simp) hmem
  have hparts : pySplit2 ' ' (version ++ ' ' :: (intToStr z ++ ' ' :: reason))
      = [version, intToStr z, reason] :=
    pySplit2_three version (intToStr z) reason hv2 (intToStr_no_space_cr z).1
  have hhdrs := parseHeaderLines_headers hs bodyLines []
    (fun p hp => ⟨(hh p hp).1, (hh p hp).2.2.2.1, (hh p hp).2.2.2.2⟩) hnodup
    (by intro p _ q hq; exact absurd hq (List.not_mem_nil q))
  simp only [parse_icap_response, hsplit, List.headI_cons, List.tail_cons, hparts]
  rw [show ([version, intToStr z, reason].get? 1) = some (intToStr z) from rfl]
  simp only [pyInt_intToStr, hhdrs]
  rfl

/-- The domain of the amended C6 body: absent, or nonempty printable ASCII
that is not whitespace-only. -/
def bodyPrintable : Option PyBytes → Prop
  | none => True
  | some bs => bs ≠ [] ∧ (∀ b ∈ bs, 32 ≤ b ∧ b < 127)
      ∧ ∃ b ∈ bs, isPySpace (Char.ofNat b) = false

/-- C6, amended: `_parse_icap_response` is a left inverse of
`_serialize_http_data` on RESPONSE payloads over the printable-ASCII
domain — version without spaces or CR, reason without CR, header names
colon-free and CR-free, header names/values with no surrounding whitespace,
distinct header names, and a body that is absent or nonempty printable
ASCII and not whitespace-only: parsing the serialized text recovers the
start-line fields (version, status_code, reason), the headers, and the
body exactly.  On request payloads the composition fails instead (see the
counterexample): the claim's quantification over `HttpRequest` is dropped. -/
theorem c6_amended_response_roundtrip (r : HttpResponse)
    (hv1 : '\r' ∉ r.version) (hv2 : ' ' ∉ r.version)
    (hr1 : '\r' ∉ r.reason)
    (hh : ∀ p ∈ r.headers, ':' ∉ p.1 ∧ '\r' ∉ p.1 ∧ '\r' ∉ p.2
      ∧ pyStrip p.1 = p.1 ∧ pyStrip p.2 = p.2)
    (hnodup : (r.headers.map Prod.fst).Nodup)
    (hbody : bodyPrintable r.body) :
    parse_icap_response (serializeLines (.response r))
      = .ok ⟨r.version, r.status_code, r.reason, r.headers, r.body, none, none⟩ := by
  cases hb : r.body with
  | none =>
    have hser : serializeLines (.response r)
        = joinCRLF ((r.version ++ ' ' :: (intToStr r.status_code ++ ' ' :: r.reason))
          :: (r.headers.map (fun p => p.1 ++ ':' :: ' ' :: p.2) ++ ([] : PyStr) :: [])) := by
      simp [serializeLines, HttpData.body, HttpData.headers, hb]
    rw [hser, parse_icap_wellformed r.version r.status_code r.reason r.headers []
      hv1 hv2 hr1 hh hnodup (by simp)]
    rfl
  | some bs =>
    rw [hb] at hbody
    obtain ⟨hne, hrange, b0, hb0, hb0s⟩ := hbody
    have hdec : decodeUtf8Ignore bs = bs.map Char.ofNat :=
      decodeUtf8Ignore_all_ascii bs (fun b hbm => by have := hrange b hbm; omega)
    have hser : serializeLines (.response r)
        = joinCRLF ((r.version ++ ' ' :: (intToStr r.status_code ++ ' ' :: r.reason))
          :: (r.headers.map (fun p => p.1 ++ ':' :: ' ' :: p.2)
            ++ ([] : PyStr) :: [bs.map Char.ofNat])) := by
      simp [serializeLines, HttpData.body, HttpData.headers, hb, hne, hdec]
    have hblcr : ∀ l ∈ [bs.map Char.ofNat], '\r' ∉ l := by
      intro l hl
      rw [List.mem_singleton] at hl
      subst hl
      intro hm
      obtain ⟨b, hbm, hbe⟩ := List.mem_map.mp hm
      exact char_ofNat_ne_cr b (hrange b hbm).1 (hrange b hbm).2 hbe
    rw [hser, parse_icap_wellformed r.version r.status_code r.reason r.headers
      [bs.map Char.ofNat] hv1 hv2 hr1 hh hnodup hblcr]
    have hjoin : joinCRLF [bs.map Char.ofNat] = bs.map Char.ofNat := rfl
    have hstrip : pyStrip (joinCRLF [bs.map Char.ofNat]) ≠ [] := by
      rw [hjoin]
      exact pyStrip_ne_nil _ (Char.ofNat b0) (List.mem_map_of_mem Char.ofNat hb0) hb0s
    rw [if_neg hstrip, hjoin, utf8Encode_map_ascii bs (fun b hbm => by have := hrange b hbm; omega)]

/-- Closed witness for the amended C6 at a concrete response with one
header and the body `hi`. -/
theorem c6_amended_witness :
    parse_icap_response (serializeLines (.response ⟨"HTTP/1.1".toList, 200, "OK".toList,
        [("Content-Type".toList, "text/html".toList)], some [104, 105]⟩))
      = .ok ⟨"HTTP/1.1".toList, 200, "OK".toList,
          [("Content-Type".toList, "text/html".toList)], some [104, 105], none, none⟩ :=
  c6_amended_response_roundtrip
    ⟨"HTTP/1.1".toList, 200, "OK".toList, [("Content-Type".toList, "text/html".toList)],
      some [104, 105]⟩
    (by decide) (by decide) (by decide) (by decide) (by decide)
    (by exact ⟨by decide, by decide, ⟨104, by decide, by decide⟩⟩)

/-! ### Claim C2, amended -/

/-- C2, amended: `requests_total` counts exactly the attempts on which the
transport delivered a response — an attempt that raises before a response
arrives does not touch it — and after a call
`requests_success + requests_failed = requests_total` holds iff the call
returned a response; a call that exhausts its attempts performs the extra
`requests_failed += 1`, so with it the sum exceeds `requests_total` by one
regardless of whether any retry happened. -/
theorem c2_amended_metrics (config : IcapConfig) (outcomes : Nat → AttemptOutcome) :
    (make_request config outcomes).metrics.requests_total
      = countRespFrom outcomes 0 (make_request config outcomes).attempts
    ∧ ((make_request config outcomes).metrics.requests_success
        + (make_request config outcomes).metrics.requests_failed
        = (make_request config outcomes).metrics.requests_total
       ↔ ∃ r, (make_request config outcomes).result = .ok r) := by
  constructor
  · have := loop_requests_total config outcomes (config.retries + 1) 0 initMetrics none []
    simpa [make_request, make_request_from, initMetrics] using this
  · have hinv := loop_success_failed config outcomes (config.retries + 1) 0 initMetrics none []
      (by simp [initMetrics])
    simp only [make_request, make_request_from]
    constructor
    · intro hsum
      cases hres : (makeRequestLoop config outcomes 0 (config.retries + 1)
          initMetrics none []).result with
      | ok r => exact ⟨r, rfl⟩
      | error e =>
        exfalso
        have := hinv.2 e hres
        omega
    · rintro ⟨r, hr⟩
      exact hinv.1 r hr

/-! ### Claim C3, amended -/

/-- Does the status line of `text` tokenize to fewer than two tokens, or to
a second token `int()` rejects? -/
def statusLineMalformed (text : PyStr) : Prop :=
  match (pySplit2 ' ' (splitCRLF text).headI).get? 1 with
  | none => True
  | some tok => pyInt tok = none

/-- C3, amended: a response whose status line has fewer than two
space-separated tokens or a non-integer second token makes
`_parse_icap_response` raise (`IndexError` / `ValueError`), and the generic
`except Exception` arm of the retry loop wraps that into the base
`IcapError("Unexpected error: …")` — not `IcapProtocolError` — and retries
it like any other failure: with such a response on every attempt the loop
still performs `retries + 1` attempts before surfacing the wrapped error.
`IcapProtocolError` is never raised on any run whatsoever. -/
theorem c3_amended_parse_failure_retried (config : IcapConfig) (text : PyStr)
    (st : Int) (d : ℚ) (hbad : statusLineMalformed text) :
    (∃ pe, parse_icap_response text = .error pe)
    ∧ (make_request config (fun _ => .response st text d)).attempts = config.retries + 1
    ∧ (∃ m, (make_request config (fun _ => .response st text d)).result
        = .error (.unexpectedErr ("Unexpected error: ".toList ++ m)))
    ∧ ∀ (config2 : IcapConfig) (outcomes2 : Nat → AttemptOutcome) (msg : PyStr),
        (make_request config2 outcomes2).result ≠ .error (.protocolErr msg) := by
  have hpe : ∃ pe, parse_icap_response text = .error pe := by
    unfold statusLineMalformed at hbad
    cases hg : (pySplit2 ' ' (splitCRLF text).headI).get? 1 with
    | none =>
      refine ⟨.indexError, ?_⟩
      simp only [parse_icap_response, hg]
    | some tok =>
      simp only [hg] at hbad
      refine ⟨.valueError tok, ?_⟩
      simp only [parse_icap_response, hg, hbad]
  obtain ⟨pe, hpe'⟩ := hpe
  have hfail : ∀ j, (attemptFails ((fun _ : Nat => AttemptOutcome.response st text d) j)).isSome := by
    intro j
    simp [attemptFails, hpe']
  have hrun := loop_all_fail config (fun _ => .response st text d) hfail
    (config.retries + 1) (Nat.succ_pos _) 0 initMetrics none []
  refine ⟨⟨pe, hpe'⟩, ?_, ?_, ?_⟩
  · simpa [make_request, make_request_from] using hrun.2
  · refine ⟨pe.msg, ?_⟩
    have := hrun.1
    simp only [attemptFails, hpe'] at this
    simpa [make_request, make_request_from] using this
  · intro config2 outcomes2 msg
    exact loop_no_protocol config2 outcomes2 (config2.retries + 1) 0 initMetrics none []
      (by intro e he msg2; cases he) msg

/-- Closed witness for the amended C3 at the single-token status line
`ICAP/1.0` with one retry configured. -/
theorem c3_amended_witness :
    (∃ pe, parse_icap_response "ICAP/1.0".toList = .error pe)
    ∧ (make_request cfg1 (fun _ => .response 200 "ICAP/1.0".toList 0)).attempts
        = cfg1.retries + 1
    ∧ (∃ m, (make_request cfg1 (fun _ => .response 200 "ICAP/1.0".toList 0)).result
        = .error (.unexpectedErr ("Unexpected error: ".toList ++ m)))
    ∧ ∀ (config2 : IcapConfig) (outcomes2 : Nat → AttemptOutcome) (msg : PyStr),
        (make_request config2 outcomes2).result ≠ .error (.protocolErr msg) :=
  c3_amended_parse_failure_retried cfg1 "ICAP/1.0".toList 200 0 (by exact trivial)

/-! ### Claim C5 -/

/-- C5: when every attempt raises before a response arrives (every raised
exception is retryable in this client), the loop performs exactly
`retries + 1` attempts and re-raises the error produced by the last
attempt, unchanged. -/
theorem c5_retries_exhausted (config : IcapConfig) (outcomes : Nat → AttemptOutcome)
    (h : ∀ i, (outcomes i).gotResponse = false) :
    (make_request config outcomes).attempts = config.retries + 1
    ∧ (make_request config outcomes).result = .error (wrapExn (outcomes config.retries)) := by
  have hfail : ∀ j, (attemptFails (outcomes j)).isSome := by
    intro j
    rw [attemptFails_of_not_response _ (h j)]
    rfl
  have hrun := loop_all_fail config outcomes hfail (config.retries + 1) (Nat.succ_pos _)
    0 initMetrics none []
  constructor
  · simpa [make_request, make_request_from] using hrun.2
  · have := hrun.1
    rw [attemptFails_of_not_response _ (h (0 + (config.retries + 1) - 1))] at this
    simpa [make_request, make_request_from] using this

/-- Closed witness for C5: with `retries = 1` and a transport raising
`aiohttp.ClientError` on every attempt, two attempts happen and the caller
receives the wrapped connection error of the second attempt. -/
theorem c5_witness :
    (make_request cfg1 (fun _ => .clientError "x".toList)).attempts = cfg1.retries + 1
    ∧ (make_request cfg1 (fun _ => .clientError "x".toList)).result
      = .error (wrapExn ((fun _ => AttemptOutcome.clientError "x".toList) cfg1.retries)) :=
  c5_retries_exhausted cfg1 (fun _ => .clientError "x".toList) (fun _ => rfl)

/-! ### Claim C7 -/

/-- C7: every delay slept is `min(retry_delay * backoff_factor ** attempt,
max_retry_delay)` for its attempt index — the delays of a run are an
initial segment of that sequence, with at most `retries` entries — and
under `retry_delay > 0`, `backoff_factor ≥ 1` the sequence is
non-decreasing (in particular non-decreasing until it reaches the
`max_retry_delay` cap). -/
theorem c7_backoff_delays (config : IcapConfig) (outcomes : Nat → AttemptOutcome)
    (h1 : 0 < config.retry_delay) (h2 : 1 ≤ config.backoff_factor) :
    (∃ k, k ≤ config.retries
      ∧ (make_request config outcomes).delays = (List.range k).map (retryDelay config))
    ∧ ∀ i j : Nat, i ≤ j → retryDelay config i ≤ retryDelay config j := by
  constructor
  · have := loop_delays config outcomes (config.retries + 1) 0 initMetrics none []
      (by omega) (by simp)
    simpa [make_request, make_request_from] using this
  · intro i j hij
    unfold retryDelay
    refine min_le_min ?_ le_rfl
    have hpow : config.backoff_factor ^ i ≤ config.backoff_factor ^ j :=
      pow_le_pow_right₀ h2 hij
    exact mul_le_mul_of_nonneg_left hpow h1.le

/-- Closed witness for C7 at the one-retry configuration with base delay 1,
factor 2, cap 60. -/
theorem c7_witness :
    (∃ k, k ≤ cfg1.retries
      ∧ (make_request cfg1 outTimeout).delays = (List.range k).map (retryDelay cfg1))
    ∧ ∀ i j : Nat, i ≤ j → retryDelay cfg1 i ≤ retryDelay cfg1 j :=
  c7_backoff_delays cfg1 outTimeout (by decide) (by decide)

end G3Icap
